import Mathlib

/-!
Verification development for the `config_manager` repository
(`src/config_manager/config_manager.py`, class `ConfigManager`).

The configuration document is a Python dict whose values are either
strings or string-to-string dicts (`data_dirs` / `system_dirs`).  We
model Python dicts as association lists kept in insertion order, with
dict assignment `d[k] = v` modelled by `dictSet` (replace in place when
the key exists, append otherwise) and `dict.get` by `alookup` (first
match; keys of a real Python dict are unique, so first match is the
match).

`os.path.join` is modelled by `joinOne` / `pjoin` following the POSIX
(`posixpath.join`) algorithm, which is the platform the repository's
Docker-volume semantics presume: a component starting with `/` resets
the path; otherwise a `/` separator is inserted unless the accumulated
path is empty or already ends with `/`.  `startswith('/')` and
`endswith('/')` on strings are expressed as `head?` / `getLast?` of the
character list, which is equivalent for the one-character separator.

The filesystem is a partial map from path to file contents
(`FS := String → Option String`); `os.path.exists p` is `(fs p).isSome`
and opening a file for reading yields the mapped contents.
-/

/-- A nested value of the configuration document: either a scalar string
or a string-to-string mapping (the `data_dirs` / `system_dirs` shape). -/
inductive JField where
  | str : String → JField
  | dict : List (String × String) → JField
deriving DecidableEq, Repr

/-- A configuration document: a Python dict from string keys to fields,
modelled as an association list in insertion order. -/
abbrev ConfigDoc := List (String × JField)

/-- Lookup in an association list (models Python `dict.get` /
membership test; real dict keys are unique, so first match suffices). -/
def alookup {β : Type} : List (String × β) → String → Option β
  | [], _ => none
  | (k, v) :: t, x => if k = x then some v else alookup t x

/-- Python dict assignment `d[k] = v`: if `k` is present its value is
replaced in place, otherwise the pair is appended. -/
def dictSet {β : Type} (d : List (String × β)) (k : String) (v : β) : List (String × β) :=
  if (d.map Prod.fst).contains k then
    d.map (fun p => if p.1 = k then (k, v) else p)
  else
    d ++ [(k, v)]

/-- One step of `posixpath.join`: `join(path, b)` for a single further
component `b`. -/
def joinOne (path b : String) : String :=
  if b.data.head? = some '/' then b
  else if path.data = [] ∨ path.data.getLast? = some '/' then path ++ b
  else path ++ "/" ++ b

/-- `os.path.join(a, p₁, …, pₙ)` under POSIX semantics. -/
def pjoin (a : String) (ps : List String) : String :=
  ps.foldl joinOne a

/-- Python iteration over a field: a dict yields its keys in order; a
string yields its characters as one-character strings (this is what
`for dir_name in self.cfg[dir_type]` does when the field is a string). -/
def fieldNames : JField → List String
  | .str s => s.data.map (fun c => String.mk [c])
  | .dict m => m.map Prod.fst

/-- `self.cfg.get(dir_type, {}).items()`: `none` models the
`AttributeError` raised when the field is a string (strings have no
`.items()`); an absent field yields the empty item list. -/
def getItems (cfg : ConfigDoc) (dirType : String) : Option (List (String × String)) :=
  match alookup cfg dirType with
  | none => some []
  | some (.dict m) => some m
  | some (.str _) => none

/-- `ConfigManager.get_volumes`: iterates `data_dirs` then
`system_dirs` in document order, and records
`volumes[host_path] = os.path.join("/", base_container_path, dir_type, dir_name)`.
Returns `none` when a present category is not a mapping (the Python
code raises there). -/
def get_volumes (cfg : ConfigDoc) (base_container_path : String := "workspace") :
    Option (List (String × String)) := do
  let d ← getItems cfg "data_dirs"
  let s ← getItems cfg "system_dirs"
  let step := fun (vols : List (String × String)) (dirType : String)
      (items : List (String × String)) =>
    items.foldl (fun vols p =>
      dictSet vols p.2 (pjoin "/" [base_container_path, dirType, p.1])) vols
  return step (step [] "data_dirs" d) "system_dirs" s

/-- `ConfigManager.get_container_config`: for each of `data_dirs`,
`system_dirs` present in the document (top-level key membership), builds
an inner dict assigning `os.path.join("/", "workspace", dir_type, dir_name)`
to every name the field yields under iteration.  Total: even a string
field is iterated (over its characters), as in Python. -/
def get_container_config (cfg : ConfigDoc) : List (String × List (String × String)) :=
  ["data_dirs", "system_dirs"].foldl (fun acc dirType =>
    match alookup cfg dirType with
    | none => acc
    | some f =>
      dictSet acc dirType ((fieldNames f).foldl (fun inner dirName =>
        dictSet inner dirName (pjoin "/" ["workspace", dirType, dirName])) [])) []

/-- `ConfigManager.get_default_config`, transcribed literally; the three
derived fields are added afterwards by dict assignment, joining
`default_cfg["system_dirs"]["cfg"]` with a fixed file name.  The inner
lookup cannot fail on this literal; `getD` placeholders model the
(unreachable) `KeyError` branches. -/
def get_default_config : ConfigDoc :=
  let default_cfg : ConfigDoc := [
    ("user_config", .str "user_config_prompt_eval.csv"),
    ("vlm_base", .str "vlmhyperbench/vlm_base.csv"),
    ("data_dirs", .dict [
      ("datasets", "vlmhyperbench/data_dirs/Datasets"),
      ("model_answers", "vlmhyperbench/data_dirs/ModelsAnswers"),
      ("model_metrics", "vlmhyperbench/data_dirs/ModelsMetrics"),
      ("prompt_collections", "vlmhyperbench/data_dirs/PromptCollections"),
      ("system_prompts", "vlmhyperbench/data_dirs/SystemPrompts"),
      ("reports", "vlmhyperbench/data_dirs/Reports")]),
    ("system_dirs", .dict [
      ("cfg", "vlmhyperbench/system_dirs/cfg"),
      ("bench_stages", "vlmhyperbench/system_dirs/bench_stages"),
      ("model_cache", "vlmhyperbench/system_dirs/model_cache"),
      ("wheels", "vlmhyperbench/system_dirs/wheels")]),
    ("eval_docker_img", .str "ghcr.io/vlmhyperbenchteam/metric-evaluator:python3.10-slim_v0.1.0")]
  let cfgDir : String :=
    match alookup default_cfg "system_dirs" with
    | some (.dict m) => (alookup m "cfg").getD ""
    | _ => ""
  let step1 := dictSet default_cfg "benchmark_run_cfg"
    (.str (pjoin cfgDir ["BenchmarkRunConfig.json"]))
  let step2 := dictSet step1 "vlm_run_packages"
    (.str (pjoin cfgDir ["vlm_run_requirements.txt"]))
  dictSet step2 "eval_run_packages"
    (.str (pjoin cfgDir ["eval_run_requirements.txt"]))

/-- Filesystem model: path to file contents; `none` means the path does
not exist. -/
abbrev FS := String → Option String

/-- Errors the modelled methods can raise. `valueError` is the spec's
InvalidArgument, `fileNotFound` its NotFound; `typeError` models
`os.path.exists` applied to a non-string (unreachable on documents of
the data-model shape). -/
inductive PyError where
  | valueError
  | fileNotFound
  | typeError
deriving DecidableEq, Repr

/-- ASCII whitespace stripped by Python `str.strip()` (space, tab,
newline, vertical tab, form feed, carriage return; non-ASCII Unicode
whitespace is outside the modelled character set of the lines). -/
def isPySpace (c : Char) : Bool :=
  c = ' ' || c = '\t' || c = '\n' || c = '\x0b' || c = '\x0c' || c = '\r'

/-- Python `str.strip()`: drop leading and trailing whitespace. -/
def pyStrip (s : String) : String :=
  String.mk (((s.data.dropWhile isPySpace).reverse.dropWhile isPySpace).reverse)

/-- Lines of a text file as Python file iteration yields them: every
line keeps its trailing newline, a final fragment without a newline is
its own line, and empty contents yield no lines. -/
def fileLines (s : String) : List String :=
  match (s.data.splitOn '\n').reverse with
  | [] => []
  | last :: revInit =>
    let withNl := revInit.reverse.map (fun p => String.mk (p ++ ['\n']))
    if last = [] then withNl else withNl ++ [String.mk last]

/-- `ConfigManager.load_packages`: validates the package type, resolves
the `<type>_packages` scalar, checks falsiness and file existence, then
returns `[line.strip() for line in f if line.strip()]`. -/
def load_packages (fs : FS) (cfg : ConfigDoc) (package_type : String) :
    Except PyError (List String) :=
  if ¬ (package_type = "vlm_run" ∨ package_type = "eval_run") then
    .error .valueError
  else
    match alookup cfg (package_type ++ "_packages") with
    | none => .error .fileNotFound
    | some (.dict m) =>
      if m = [] then .error .fileNotFound else .error .typeError
    | some (.str file_path) =>
      if file_path = "" then .error .fileNotFound
      else
        match fs file_path with
        | none => .error .fileNotFound
        | some contents =>
          .ok ((fileLines contents).filterMap (fun line =>
            let s := pyStrip line
            if s = "" then none else some s))

/-- The processing order of `get_volumes`: `data_dirs` entries first,
then `system_dirs` entries, each in document order, every item tagged
with its category: `(category, name, host_path)`. -/
def taggedItems (cfg : ConfigDoc) : Option (List (String × String × String)) := do
  let d ← getItems cfg "data_dirs"
  let s ← getItems cfg "system_dirs"
  return d.map (fun p => ("data_dirs", p.1, p.2)) ++ s.map (fun p => ("system_dirs", p.1, p.2))

/-- The inner dict `get_container_config` builds for one category: one
assignment per name the field yields under iteration. -/
def innerFor (dirType : String) (f : JField) : List (String × String) :=
  (fieldNames f).foldl (fun inner dirName =>
    dictSet inner dirName (pjoin "/" ["workspace", dirType, dirName])) []

/-- Decidable side condition: no name of any nested mapping of the
document begins with `/` (names with a leading slash make
`os.path.join` discard everything joined before them). -/
def namesClean (cfg : ConfigDoc) : Bool :=
  cfg.all (fun p =>
    match p.2 with
    | .str _ => true
    | .dict m => m.all (fun q => !(decide (q.1.data.head? = some '/'))))

/-- The state of a `ConfigManager` instance: the stored write path, the
owned configuration document, and the two views cached by `__init__`. -/
structure CMState where
  cfg_path : String
  cfg : ConfigDoc
  volumes : List (String × String)
  cfg_container : List (String × List (String × String))
deriving DecidableEq, Repr

/-- The tail of `ConfigManager.__init__` once the document is populated:
caches `get_volumes()` (with the default base) and
`get_container_config()` computed from the document at that moment.
Construction fails (Python raises) when a present category is not a
mapping. -/
def construct (cfg_path : String) (cfg : ConfigDoc) : Option CMState :=
  (get_volumes cfg "workspace").map
    (fun v => ⟨cfg_path, cfg, v, get_container_config cfg⟩)

/-- A call to `get_volumes` on an instance: returns the freshly derived
mapping and the (unchanged) instance state. -/
def callGetVolumes (st : CMState) (base : String := "workspace") :
    Option (List (String × String)) × CMState :=
  (get_volumes st.cfg base, st)

/-- A call to `get_container_config` on an instance: returns the freshly
derived mapping and the (unchanged) instance state. -/
def callGetContainerConfig (st : CMState) :
    List (String × List (String × String)) × CMState :=
  (get_container_config st.cfg, st)

/-- Direct field assignment `instance.cfg = newDoc` by the owning
caller (the documented mutation channel of the document). -/
def setCfg (st : CMState) (c : ConfigDoc) : CMState :=
  { st with cfg := c }

/-- JSON whitespace (accepted between tokens by `json.load`). -/
def isJsonWs (c : Char) : Bool :=
  c = ' ' || c = '\t' || c = '\n' || c = '\r'

/-- Skips JSON whitespace. -/
def skipWs (cs : List Char) : List Char :=
  cs.dropWhile isJsonWs

/-- Lowercase hexadecimal digit, as produced by the `\u%04x` escapes of
Python's JSON encoder. -/
def hexDig (n : Nat) : Char :=
  if n < 10 then Char.ofNat (48 + n) else Char.ofNat (87 + n)

/-- How Python's `json.dump` (with `ensure_ascii=False`) writes one
character inside a string literal: `"` and `\` and the C0 control
characters are escaped (named escapes for the common five, `\u00xx`
otherwise), everything else is written literally. -/
def escChar (c : Char) : List Char :=
  if c = '"' then ['\\', '"']
  else if c = '\\' then ['\\', '\\']
  else if c = '\n' then ['\\', 'n']
  else if c = '\t' then ['\\', 't']
  else if c = '\r' then ['\\', 'r']
  else if c = '\x08' then ['\\', 'b']
  else if c = '\x0c' then ['\\', 'f']
  else if c.toNat < 32 then ['\\', 'u', '0', '0', hexDig (c.toNat / 16), hexDig (c.toNat % 16)]
  else [c]

/-- A JSON string literal for `s`. -/
def quoteChars (s : String) : List Char :=
  '"' :: (s.data.map escChar).flatten ++ ['"']

/-- The `",\n"`-separated entry lines of an indented JSON object, each
line prefixed by `ind`, keys and values separated by `": "`. -/
def objItems {α : Type} (ind : List Char) (ev : α → List Char) :
    List (String × α) → List Char
  | [] => []
  | [p] => ind ++ quoteChars p.1 ++ ':' :: ' ' :: ev p.2
  | p :: q :: t =>
    ind ++ quoteChars p.1 ++ ':' :: ' ' :: ev p.2 ++ ',' :: '\n' :: objItems ind ev (q :: t)

/-- An indented JSON object as `json.dump(…, indent=4)` writes it: `{}`
when empty, otherwise entries on their own lines and the closing brace
indented by `closeInd`. -/
def dumpObj {α : Type} (ind closeInd : List Char) (ev : α → List Char)
    (m : List (String × α)) : List Char :=
  match m with
  | [] => ['{', '}']
  | _ => '{' :: '\n' :: (objItems ind ev m ++ '\n' :: closeInd ++ ['}'])

/-- Four-space indentation unit of `json.dump(…, indent=4)`. -/
def ind4 : List Char := [' ', ' ', ' ', ' ']

/-- Indentation of nested-object entries. -/
def ind8 : List Char := ind4 ++ ind4

/-- Serialization of one field value. -/
def dumpField : JField → List Char
  | .str s => quoteChars s
  | .dict m => dumpObj ind8 ind4 (fun v => quoteChars v) m

/-- `json.dump(self.cfg, f, ensure_ascii=False, indent=4)`: the exact
text written to the configuration file. -/
def dumpConfig (cfg : ConfigDoc) : String :=
  String.mk (dumpObj ind4 [] dumpField cfg)

/-- Value of a hexadecimal digit, as accepted in `\uXXXX` escapes. -/
def hexVal (c : Char) : Option Nat :=
  if '0' ≤ c ∧ c ≤ '9' then some (c.toNat - 48)
  else if 'a' ≤ c ∧ c ≤ 'f' then some (c.toNat - 87)
  else if 'A' ≤ c ∧ c ≤ 'F' then some (c.toNat - 55)
  else none

/-- Named escapes accepted after a backslash in a JSON string. -/
def escDecode (e : Char) : Option Char :=
  if e = '"' then some '"'
  else if e = '\\' then some '\\'
  else if e = '/' then some '/'
  else if e = 'n' then some '\n'
  else if e = 't' then some '\t'
  else if e = 'r' then some '\r'
  else if e = 'b' then some '\x08'
  else if e = 'f' then some '\x0c'
  else none

/-- Scans the body of a JSON string literal (the opening quote already
consumed) up to its closing quote, decoding escapes; raw control
characters are rejected, as in strict `json.load`. -/
def scanStr : List Char → Option (List Char × List Char)
  | [] => none
  | c :: rest =>
    if c = '"' then some ([], rest)
    else if c = '\\' then
      match rest with
      | [] => none
      | e :: rest2 =>
        if e = 'u' then
          match rest2 with
          | a :: b :: x :: d :: rest3 =>
            match hexVal a, hexVal b, hexVal x, hexVal d with
            | some v1, some v2, some v3, some v4 =>
              (scanStr rest3).map (fun p =>
                (Char.ofNat (((v1 * 16 + v2) * 16 + v3) * 16 + v4) :: p.1, p.2))
            | _, _, _, _ => none
          | _ => none
        else
          match escDecode e with
          | some ch => (scanStr rest2).map (fun p => (ch :: p.1, p.2))
          | none => none
    else if c.toNat < 32 then none
    else (scanStr rest).map (fun p => (c :: p.1, p.2))

/-- Parses a JSON string literal. -/
def parseJStr (cs : List Char) : Option (String × List Char) :=
  match cs with
  | '"' :: rest => (scanStr rest).map (fun p => (String.mk p.1, p.2))
  | _ => none

/-- Parses the entries of a nonempty JSON object (positioned after the
opening brace), building the resulting dict by assignment so that a
repeated key keeps the last binding, as `json.load` does.  `fuel`
bounds the number of entries. -/
def parseObjLoop {α : Type} (pv : List Char → Option (α × List Char)) :
    Nat → List (String × α) → List Char → Option (List (String × α) × List Char)
  | 0, _, _ => none
  | fuel + 1, acc, cs =>
    match parseJStr (skipWs cs) with
    | none => none
    | some (k, r1) =>
      match skipWs r1 with
      | ':' :: r2 =>
        match pv (skipWs r2) with
        | none => none
        | some (v, r3) =>
          match skipWs r3 with
          | ',' :: r4 => parseObjLoop pv fuel (dictSet acc k v) r4
          | '}' :: r4 => some (dictSet acc k v, r4)
          | _ => none
      | _ => none

/-- Parses a JSON object whose opening brace is the current character. -/
def parseObjAt {α : Type} (pv : List Char → Option (α × List Char)) (fuel : Nat)
    (cs : List Char) : Option (List (String × α) × List Char) :=
  match cs with
  | '{' :: r =>
    match skipWs r with
    | '}' :: r2 => some ([], r2)
    | _ => parseObjLoop pv fuel [] r
  | _ => none

/-- Parses one field value of the document: a string, or a nested
object of strings.  Any other JSON value fails: `read_config` only
succeeds on documents of the data-model shape. -/
def parseField (cs : List Char) : Option (JField × List Char) :=
  match cs with
  | '"' :: _ => (parseJStr cs).map (fun p => (JField.str p.1, p.2))
  | '{' :: _ =>
    (parseObjAt (fun ds => parseJStr ds) (cs.length + 1) cs).map
      (fun p => (JField.dict p.1, p.2))
  | _ => none

/-- Parses a whole configuration file: one top-level object, possibly
surrounded by whitespace, nothing after it. -/
def parseConfig (s : String) : Option ConfigDoc :=
  match parseObjAt parseField ((skipWs s.data).length + 1) (skipWs s.data) with
  | some (doc, rest) => if skipWs rest = [] then some doc else none
  | none => none

/-- `ConfigManager.write_config`: overwrites the file at the stored
path with the serialized document. -/
def write_config (fs : FS) (st : CMState) : FS :=
  fun q => if q = st.cfg_path then some (dumpConfig st.cfg) else fs q

/-- `ConfigManager.read_config`: reads and parses the file at the given
path; `none` models both `FileNotFoundError` and `JSONDecodeError` (and
content outside the data-model shape). -/
def read_config (fs : FS) (cfg_path : String) : Option ConfigDoc :=
  (fs cfg_path).bind (fun contents => parseConfig contents)

/-- Decidable key-uniqueness of a document: top-level keys distinct and
the keys of every nested mapping distinct (the invariant every document
coming from a Python dict satisfies). -/
def docNodupB (cfg : ConfigDoc) : Bool :=
  decide ((cfg.map Prod.fst).Nodup) &&
    cfg.all (fun p =>
      match p.2 with
      | .str _ => true
      | .dict m => decide ((m.map Prod.fst).Nodup))

lemma alookup_append {β : Type} (d e : List (String × β)) (x : String) :
    alookup (d ++ e) x = (alookup d x).or (alookup e x) := by
  induction d with
  | nil => simp [alookup]
  | cons p t ih =>
    obtain ⟨a, b⟩ := p
    by_cases h : a = x <;> simp [alookup, h, ih]

lemma alookup_isSome_iff {β : Type} (d : List (String × β)) (x : String) :
    (alookup d x).isSome ↔ x ∈ d.map Prod.fst := by
  induction d with
  | nil => simp [alookup]
  | cons p t ih =>
    obtain ⟨a, b⟩ := p
    by_cases h : a = x
    · simp [alookup, h]
    · have : ¬ (x = a) := fun hxa => h hxa.symm
      simp [alookup, h, ih, this]

lemma alookup_eq_none_of_not_mem {β : Type} {d : List (String × β)} {x : String}
    (h : x ∉ d.map Prod.fst) : alookup d x = none := by
  by_contra hne
  exact h ((alookup_isSome_iff d x).mp (Option.ne_none_iff_isSome.mp hne))

lemma alookup_map_replace_ne {β : Type} (d : List (String × β)) (k : String) (v : β)
    {x : String} (hx : x ≠ k) :
    alookup (d.map (fun p => if p.1 = k then (k, v) else p)) x = alookup d x := by
  induction d with
  | nil => rfl
  | cons p t ih =>
    obtain ⟨a, b⟩ := p
    simp only [List.map_cons]
    by_cases h : a = k
    · subst h
      rw [if_pos rfl]
      have hxa : ¬ (a = x) := fun hax => hx hax.symm
      simp [alookup, hxa, ih]
    · rw [if_neg h]
      by_cases h2 : a = x <;> simp [alookup, h2, ih]

lemma alookup_map_replace_of_mem {β : Type} (d : List (String × β)) (k : String) (v : β)
    (hm : k ∈ d.map Prod.fst) :
    alookup (d.map (fun p => if p.1 = k then (k, v) else p)) k = some v := by
  induction d with
  | nil => simp at hm
  | cons p t ih =>
    obtain ⟨a, b⟩ := p
    simp only [List.map_cons]
    by_cases h : a = k
    · subst h
      rw [if_pos rfl]
      simp [alookup]
    · rw [if_neg h]
      have : k ∈ t.map Prod.fst := by
        rcases List.mem_map.mp hm with ⟨q, hq, hqk⟩
        rcases List.mem_cons.mp hq with h1 | h1
        · exact absurd (by rw [h1] at hqk; exact hqk) h
        · exact List.mem_map.mpr ⟨q, h1, hqk⟩
      simp [alookup, h, ih this]

/-- Lookup after a Python dict assignment: the assigned key maps to the
new value; every other key is unaffected. -/
lemma alookup_dictSet {β : Type} (d : List (String × β)) (k : String) (v : β) (x : String) :
    alookup (dictSet d k v) x = if x = k then some v else alookup d x := by
  unfold dictSet
  by_cases hm : k ∈ d.map Prod.fst
  · rw [if_pos (List.elem_iff.mpr hm)]
    by_cases hx : x = k
    · subst hx; simpa using alookup_map_replace_of_mem d x v hm
    · simp [hx, alookup_map_replace_ne d k v hx]
  · rw [if_neg (fun hc => hm (List.elem_iff.mp hc))]
    rw [alookup_append]
    by_cases hx : x = k
    · subst hx
      simp [alookup_eq_none_of_not_mem hm, alookup]
    · have : ¬ (k = x) := fun h => hx h.symm
      simp [alookup, this, hx, Option.or_none]

lemma keys_dictSet_of_mem {β : Type} {d : List (String × β)} {k : String} (v : β)
    (hm : k ∈ d.map Prod.fst) :
    (dictSet d k v).map Prod.fst = d.map Prod.fst := by
  unfold dictSet
  rw [if_pos (List.elem_iff.mpr hm), List.map_map]
  apply List.map_congr_left
  intro p _
  by_cases h : p.1 = k <;> simp [h, Function.comp]

lemma keys_dictSet_of_not_mem {β : Type} {d : List (String × β)} {k : String} (v : β)
    (hm : k ∉ d.map Prod.fst) :
    (dictSet d k v).map Prod.fst = d.map Prod.fst ++ [k] := by
  unfold dictSet
  rw [if_neg (fun hc => hm (List.elem_iff.mp hc))]
  simp

lemma nodup_keys_dictSet {β : Type} {d : List (String × β)} (k : String) (v : β)
    (hd : (d.map Prod.fst).Nodup) : ((dictSet d k v).map Prod.fst).Nodup := by
  by_cases hm : k ∈ d.map Prod.fst
  · rw [keys_dictSet_of_mem v hm]; exact hd
  · rw [keys_dictSet_of_not_mem v hm]
    simp only [List.nodup_append, List.nodup_cons, List.not_mem_nil, not_false_iff,
      List.nodup_nil, and_true, true_and, List.disjoint_singleton]
    exact ⟨hd, hm⟩

lemma mem_dictSet {β : Type} {d : List (String × β)} {k : String} {v : β}
    {p : String × β} (h : p ∈ dictSet d k v) : p = (k, v) ∨ p ∈ d := by
  unfold dictSet at h
  by_cases hm : k ∈ d.map Prod.fst
  · rw [if_pos (List.elem_iff.mpr hm)] at h
    rcases List.mem_map.mp h with ⟨q, hq, hqp⟩
    by_cases hk : q.1 = k
    · left; rw [if_pos hk] at hqp; exact hqp.symm
    · right; rw [if_neg hk] at hqp; exact hqp ▸ hq
  · rw [if_neg (fun hc => hm (List.elem_iff.mp hc))] at h
    simp only [List.mem_append, List.mem_singleton] at h
    tauto

/-- Lookup in a dict built by folding assignments whose value is a
function of the key alone: the result depends only on key membership. -/
lemma alookup_foldl_dictSet_names {β : Type} (g : String → β) (names : List String)
    (init : List (String × β)) (x : String) :
    alookup (names.foldl (fun d n => dictSet d n (g n)) init) x =
      if x ∈ names then some (g x) else alookup init x := by
  induction names generalizing init with
  | nil => simp
  | cons n t ih =>
    simp only [List.foldl_cons, ih, List.mem_cons]
    by_cases ht : x ∈ t
    · simp [ht]
    · by_cases hn : x = n <;> simp [ht, hn, alookup_dictSet]

/-- Lookup in a dict built by folding assignments over a list of items:
the entry processed last for a key wins. -/
lemma alookup_foldl_dictSet {β : Type} {ι : Type} (key : ι → String) (val : ι → β)
    (items : List ι) (init : List (String × β)) (x : String) :
    alookup (items.foldl (fun d i => dictSet d (key i) (val i)) init) x =
      match (items.filter (fun i => key i = x)).getLast? with
      | some i => some (val i)
      | none => alookup init x := by
  induction items generalizing init with
  | nil => simp
  | cons i t ih =>
    simp only [List.foldl_cons, ih, List.filter_cons]
    by_cases hk : key i = x
    · rw [if_pos (by simp [hk])]
      cases hft : t.filter (fun j => key j = x) with
      | nil => simp [alookup_dictSet, hk]
      | cons c l =>
        rw [List.getLast?_cons_cons,
          List.getLast?_eq_getLast_of_ne_nil (List.cons_ne_nil c l)]
    · rw [if_neg (by simp [hk])]
      cases hft : t.filter (fun j => key j = x) with
      | nil =>
        have hxk : ¬ (x = key i) := fun h => hk h.symm
        simp [alookup_dictSet, hxk]
      | cons c l =>
        rw [List.getLast?_eq_getLast_of_ne_nil (List.cons_ne_nil c l)]

lemma nodup_keys_foldl_dictSet {β : Type} {ι : Type} (key : ι → String) (val : ι → β)
    (items : List ι) (init : List (String × β)) (h : (init.map Prod.fst).Nodup) :
    ((items.foldl (fun d i => dictSet d (key i) (val i)) init).map Prod.fst).Nodup := by
  induction items generalizing init with
  | nil => exact h
  | cons i t ih => exact ih _ (nodup_keys_dictSet _ _ h)

lemma mem_foldl_dictSet {β : Type} {ι : Type} {key : ι → String} {val : ι → β}
    {items : List ι} {init : List (String × β)} {p : String × β}
    (h : p ∈ items.foldl (fun d i => dictSet d (key i) (val i)) init) :
    p ∈ init ∨ ∃ i ∈ items, p = (key i, val i) := by
  induction items generalizing init with
  | nil => exact Or.inl h
  | cons i t ih =>
    rcases ih h with h1 | h1
    · rcases mem_dictSet h1 with h2 | h2
      · right; exact ⟨i, List.mem_cons_self i t, h2⟩
      · left; exact h2
    · rcases h1 with ⟨j, hj, hp⟩
      right; exact ⟨j, List.mem_cons_of_mem i hj, hp⟩

lemma data_ne_nil_of_ne_empty {s : String} (h : s ≠ "") : s.data ≠ [] := by
  intro hd
  apply h
  cases s
  simp_all

lemma getLast?_data_append (s t : String) (h : t.data ≠ []) :
    (s ++ t).data.getLast? = t.data.getLast? := by
  rw [String.data_append, List.getLast?_append]
  rcases Option.isSome_iff_exists.mp (List.getLast?_isSome.mpr h) with ⟨y, hy⟩
  rw [hy]
  rfl

lemma joinOne_root (b : String) (hb : b.data.head? ≠ some '/') :
    joinOne "/" b = "/" ++ b := by
  unfold joinOne
  rw [if_neg hb, if_pos (Or.inr (by decide))]

lemma joinOne_of_clean (path b : String) (hb : b.data.head? ≠ some '/')
    (hp1 : path.data ≠ []) (hp2 : path.data.getLast? ≠ some '/') :
    joinOne path b = path ++ "/" ++ b := by
  unfold joinOne
  rw [if_neg hb, if_neg (fun h => h.elim hp1 hp2)]

/-- The concatenation formula for `os.path.join("/", B, dt, n)`: it
holds exactly when `B` is nonempty with no leading or trailing slash,
`dt` likewise, and `n` has no leading slash. -/
lemma pjoin_slash (B dt n : String)
    (hB1 : B.data ≠ []) (hB2 : B.data.head? ≠ some '/') (hB3 : B.data.getLast? ≠ some '/')
    (hdt1 : dt.data ≠ []) (hdt2 : dt.data.head? ≠ some '/')
    (hdt3 : dt.data.getLast? ≠ some '/') (hn : n.data.head? ≠ some '/') :
    pjoin "/" [B, dt, n] = "/" ++ B ++ "/" ++ dt ++ "/" ++ n := by
  unfold pjoin
  simp only [List.foldl_cons, List.foldl_nil]
  rw [joinOne_root B hB2]
  have e1 : ("/" ++ B).data ≠ [] := by
    rw [String.data_append]
    simp [hB1]
  have e2 : ("/" ++ B).data.getLast? ≠ some '/' := by
    rw [getLast?_data_append "/" B hB1]
    exact hB3
  rw [joinOne_of_clean _ dt hdt2 e1 e2]
  have e3 : ("/" ++ B ++ "/" ++ dt).data ≠ [] := by
    rw [String.data_append]
    simp [hdt1]
  have e4 : ("/" ++ B ++ "/" ++ dt).data.getLast? ≠ some '/' := by
    rw [getLast?_data_append _ dt hdt1]
    exact hdt3
  rw [joinOne_of_clean _ n hn e3 e4]

/-- Container paths built by `get_container_config` satisfy the
concatenation formula whenever the name has no leading slash. -/
lemma cpath_eq (dt n : String) (hdt : dt = "data_dirs" ∨ dt = "system_dirs")
    (hn : n.data.head? ≠ some '/') :
    pjoin "/" ["workspace", dt, n] = "/workspace/" ++ dt ++ "/" ++ n := by
  rcases hdt with h | h <;> subst h
  · rw [pjoin_slash "workspace" "data_dirs" n (by decide) (by decide) (by decide)
      (by decide) (by decide) (by decide) hn]
    rw [show ("/" ++ "workspace" ++ "/" ++ "data_dirs" ++ "/" : String) =
      "/workspace/" ++ "data_dirs" ++ "/" by decide]
  · rw [pjoin_slash "workspace" "system_dirs" n (by decide) (by decide) (by decide)
      (by decide) (by decide) (by decide) hn]
    rw [show ("/" ++ "workspace" ++ "/" ++ "system_dirs" ++ "/" : String) =
      "/workspace/" ++ "system_dirs" ++ "/" by decide]

lemma get_volumes_eq_fold (cfg : ConfigDoc) (B : String) :
    get_volumes cfg B = (taggedItems cfg).map (fun items =>
      items.foldl (fun vols i => dictSet vols i.2.2 (pjoin "/" [B, i.1, i.2.1])) []) := by
  unfold get_volumes taggedItems
  cases hd : getItems cfg "data_dirs" with
  | none => rfl
  | some d =>
    cases hs : getItems cfg "system_dirs" with
    | none => rfl
    | some s =>
      simp [List.foldl_append, List.foldl_map]

example :
    get_volumes [("data_dirs", .dict [("d", "h")]), ("system_dirs", .dict [("b", "h")])] "w" =
      some [("h", "/w/system_dirs/b")] := by decide

example : pjoin "/" ["workspace", "data_dirs", "datasets"] = "/workspace/data_dirs/datasets" := by
  decide

lemma alookup_mem {β : Type} {d : List (String × β)} {x : String} {v : β}
    (h : alookup d x = some v) : (x, v) ∈ d := by
  induction d with
  | nil => simp [alookup] at h
  | cons p t ih =>
    obtain ⟨a, b⟩ := p
    by_cases ha : a = x
    · subst ha
      simp [alookup] at h
      simp [h]
    · simp [alookup, ha] at h
      exact List.mem_cons_of_mem _ (ih h)

lemma namesClean_spec {cfg : ConfigDoc} (h : namesClean cfg = true) :
    ∀ dt m, alookup cfg dt = some (.dict m) →
      ∀ n ∈ m.map Prod.fst, n.data.head? ≠ some '/' := by
  intro dt m hdt n hn
  have h1 := List.all_eq_true.mp h _ (alookup_mem hdt)
  rcases List.mem_map.mp hn with ⟨q, hq, rfl⟩
  have h2 := List.all_eq_true.mp h1 _ hq
  simpa using h2

lemma getItems_some {cfg : ConfigDoc} {dt : String} {d : List (String × String)}
    (h : getItems cfg dt = some d) :
    (alookup cfg dt = none ∧ d = []) ∨ alookup cfg dt = some (.dict d) := by
  unfold getItems at h
  cases ha : alookup cfg dt with
  | none =>
    rw [ha] at h
    simp at h
    exact Or.inl ⟨rfl, h⟩
  | some f =>
    cases f with
    | str s => rw [ha] at h; simp at h
    | dict m =>
      rw [ha] at h
      simp at h
      exact Or.inr (by rw [h])

lemma dictSet_of_not_mem {β : Type} {d : List (String × β)} {k : String} (v : β)
    (hm : k ∉ d.map Prod.fst) : dictSet d k v = d ++ [(k, v)] := by
  unfold dictSet
  rw [if_neg (fun hc => hm (List.elem_iff.mp hc))]

lemma get_container_config_eq (cfg : ConfigDoc) :
    get_container_config cfg =
      (match alookup cfg "data_dirs" with
       | none => ([] : List (String × List (String × String)))
       | some f => [("data_dirs", innerFor "data_dirs" f)]) ++
      (match alookup cfg "system_dirs" with
       | none => []
       | some f => [("system_dirs", innerFor "system_dirs" f)]) := by
  have hne : ("system_dirs" : String) ∉ (["data_dirs"] : List String) := by decide
  unfold get_container_config
  simp only [List.foldl_cons, List.foldl_nil]
  cases h1 : alookup cfg "data_dirs" <;> cases h2 : alookup cfg "system_dirs" <;>
    simp [innerFor, dictSet_of_not_mem, hne]

lemma alookup_gcc (cfg : ConfigDoc) (dt : String) :
    alookup (get_container_config cfg) dt =
      if dt = "data_dirs" ∨ dt = "system_dirs" then
        (alookup cfg dt).map (fun f => innerFor dt f)
      else none := by
  rw [get_container_config_eq, alookup_append]
  by_cases hd : dt = "data_dirs"
  · subst hd
    rw [if_pos (Or.inl rfl)]
    have hne : ¬ (("system_dirs" : String) = "data_dirs") := by decide
    cases h1 : alookup cfg "data_dirs" <;> cases h2 : alookup cfg "system_dirs" <;>
      simp [alookup, hne]
  · by_cases hs : dt = "system_dirs"
    · subst hs
      rw [if_pos (Or.inr rfl)]
      have hne : ¬ (("data_dirs" : String) = "system_dirs") := by decide
      cases h1 : alookup cfg "data_dirs" <;> cases h2 : alookup cfg "system_dirs" <;>
        simp [alookup, hne]
    · rw [if_neg (fun h => h.elim hd hs)]
      have hne1 : ¬ (("data_dirs" : String) = dt) := fun h => hd h.symm
      have hne2 : ¬ (("system_dirs" : String) = dt) := fun h => hs h.symm
      cases h1 : alookup cfg "data_dirs" <;> cases h2 : alookup cfg "system_dirs" <;>
        simp [alookup, hne1, hne2]

lemma alookup_innerFor (dt : String) (f : JField) (x : String) :
    alookup (innerFor dt f) x =
      if x ∈ fieldNames f then some (pjoin "/" ["workspace", dt, x]) else none := by
  unfold innerFor
  rw [alookup_foldl_dictSet_names]
  simp [alookup]

lemma filterMap_strip (lines : List String) :
    (lines.filterMap (fun line =>
        let s := pyStrip line
        if s = "" then none else some s)) =
      (lines.map pyStrip).filter (fun s => s ≠ "") := by
  induction lines with
  | nil => rfl
  | cons l t ih =>
    simp only [List.filterMap_cons, List.map_cons, List.filter_cons]
    by_cases h : pyStrip l = "" <;> simp [h, ih]

/-- C4: on a valid kind whose `<kind>_packages` field names an existing
file, `load_packages` returns the file's lines trimmed of surrounding
whitespace, lines that become empty discarded, in file order with
duplicates preserved. -/
theorem c4_load_packages_lines (fs : FS) (cfg : ConfigDoc) (t p content : String)
    (ht : t = "vlm_run" ∨ t = "eval_run")
    (hfield : alookup cfg (t ++ "_packages") = some (.str p))
    (hne : p ≠ "")
    (hfile : fs p = some content) :
    load_packages fs cfg t =
      .ok (((fileLines content).map pyStrip).filter (fun s => s ≠ "")) := by
  unfold load_packages
  rw [if_neg (not_not_intro ht), hfield]
  show (if p = "" then (.error .fileNotFound : Except PyError (List String))
    else match fs p with
    | none => .error .fileNotFound
    | some contents =>
      .ok ((fileLines contents).filterMap (fun line =>
        let s := pyStrip line
        if s = "" then none else some s))) = _
  rw [if_neg hne, hfile]
  exact congrArg Except.ok (filterMap_strip (fileLines content))

/-- C4 witness: the spec's own example, a requirements file containing
`"\n foo \n\nbar\n"` yields `["foo", "bar"]`. -/
theorem c4_load_packages_lines_witness :
    load_packages (fun q => if q = "r.txt" then some "\n foo \n\nbar\n" else none)
      [("vlm_run_packages", .str "r.txt")] "vlm_run" = .ok ["foo", "bar"] :=
  (c4_load_packages_lines
    (fun q => if q = "r.txt" then some "\n foo \n\nbar\n" else none)
    [("vlm_run_packages", .str "r.txt")] "vlm_run" "r.txt" "\n foo \n\nbar\n"
    (Or.inl rfl) (by decide) (by decide) (by decide)).trans (by rfl)

/-- C5: any package type other than `vlm_run` / `eval_run` fails with
the InvalidArgument error (`ValueError`), for every filesystem and
every document — in particular no file is consulted. -/
theorem c5_load_packages_invalid (fs : FS) (cfg : ConfigDoc) (t : String)
    (h1 : t ≠ "vlm_run") (h2 : t ≠ "eval_run") :
    load_packages fs cfg t = .error .valueError := by
  unfold load_packages
  rw [if_pos (fun h => h.elim h1 h2)]

/-- C5 witness at the token `"other"`. -/
theorem c5_load_packages_invalid_witness :
    load_packages (fun _ => none) [] "other" = .error .valueError :=
  c5_load_packages_invalid (fun _ => none) [] "other" (by decide) (by decide)

/-- C6: on a valid kind, a missing or empty `<kind>_packages` field, or
one naming a file that does not exist, fails with the NotFound error
(`FileNotFoundError`). -/
theorem c6_load_packages_not_found (fs : FS) (cfg : ConfigDoc) (t : String)
    (ht : t = "vlm_run" ∨ t = "eval_run")
    (hmiss : alookup cfg (t ++ "_packages") = none ∨
      alookup cfg (t ++ "_packages") = some (.str "") ∨
      (∃ p, alookup cfg (t ++ "_packages") = some (.str p) ∧ fs p = none)) :
    load_packages fs cfg t = .error .fileNotFound := by
  unfold load_packages
  rw [if_neg (not_not_intro ht)]
  rcases hmiss with h | h | ⟨p, hp, hfs⟩
  · simp [h]
  · simp [h]
  · by_cases hpe : p = ""
    · simp [hp, hpe]
    · simp [hp, hpe, hfs]

/-- C6 witness: a document with no `vlm_run_packages` field. -/
theorem c6_load_packages_not_found_witness :
    load_packages (fun _ => none) [] "vlm_run" = .error .fileNotFound :=
  c6_load_packages_not_found (fun _ => none) [] "vlm_run" (Or.inl rfl)
    (Or.inl (by decide))

example : pjoin "/" ["/w", "data_dirs", "d"] = "/w/data_dirs/d" := by decide

example : pjoin "vlmhyperbench/system_dirs/cfg" ["BenchmarkRunConfig.json"] =
    "vlmhyperbench/system_dirs/cfg/BenchmarkRunConfig.json" := by decide

example : load_packages (fun p => if p = "r.txt" then some "\n foo \n\nbar\n" else none)
    [("vlm_run_packages", .str "r.txt")] "vlm_run" = .ok ["foo", "bar"] := by rfl

/-- C1 counterexample: the claim's concatenation formula for leaves
fails as stated.  A name beginning with `/` makes `os.path.join` return
the name itself, not `/workspace/<category>/<name>`. -/
theorem c1_counterexample :
    get_container_config [("data_dirs", JField.dict [("/x", "h")])] =
      [("data_dirs", [("/x", "/x")])] ∧
    ("/x" : String) ≠ "/workspace/" ++ "data_dirs" ++ "/" ++ "/x" := by decide

/-- C1 (amended with: no nested name begins with `/`):
`get_container_config` contains exactly the categories present in the
document among `data_dirs`/`system_dirs`; for a category stored as a
mapping the inner keys are exactly the document's names; and every leaf
equals `/workspace/<category>/<name>` — the base segment is the fixed
`workspace`, whatever base any `get_volumes` call received. -/
theorem c1_get_container_config_shape (cfg : ConfigDoc)
    (hclean : namesClean cfg = true) :
    (∀ dt, (alookup (get_container_config cfg) dt).isSome ↔
      ((dt = "data_dirs" ∨ dt = "system_dirs") ∧ (alookup cfg dt).isSome)) ∧
    (∀ dt m, (dt = "data_dirs" ∨ dt = "system_dirs") →
      alookup cfg dt = some (.dict m) →
      ∃ inner, alookup (get_container_config cfg) dt = some inner ∧
        (∀ n, (alookup inner n).isSome ↔ n ∈ m.map Prod.fst) ∧
        (∀ n c, alookup inner n = some c → c = "/workspace/" ++ dt ++ "/" ++ n)) := by
  constructor
  · intro dt
    rw [alookup_gcc]
    by_cases h : dt = "data_dirs" ∨ dt = "system_dirs"
    · rw [if_pos h]
      simp [h]
    · rw [if_neg h]
      simp [h]
  · intro dt m hdt hm
    refine ⟨innerFor dt (.dict m), ?_, ?_, ?_⟩
    · rw [alookup_gcc, if_pos hdt, hm]
      rfl
    · intro n
      rw [alookup_innerFor]
      simp only [fieldNames]
      by_cases hn : n ∈ m.map Prod.fst
      · rw [if_pos hn]
        simp [hn]
      · rw [if_neg hn]
        simp [hn]
    · intro n c hc
      rw [alookup_innerFor] at hc
      simp only [fieldNames] at hc
      by_cases hn : n ∈ m.map Prod.fst
      · rw [if_pos hn] at hc
        have hcl := namesClean_spec hclean dt m hm n hn
        have := (Option.some.injEq _ _).mp hc
        rw [← this, cpath_eq dt n hdt hcl]
      · rw [if_neg hn] at hc
        cases hc

/-- C1 witness at a one-entry document. -/
theorem c1_get_container_config_shape_witness :
    ∃ inner,
      alookup (get_container_config [("data_dirs", JField.dict [("d", "h")])])
          "data_dirs" = some inner ∧
      (∀ n, (alookup inner n).isSome ↔
        n ∈ ([("d", "h")] : List (String × String)).map Prod.fst) ∧
      (∀ n c, alookup inner n = some c → c = "/workspace/" ++ "data_dirs" ++ "/" ++ n) :=
  (c1_get_container_config_shape [("data_dirs", JField.dict [("d", "h")])]
    (by decide)).2 "data_dirs" [("d", "h")] (Or.inl rfl) (by decide)

/-- C2 counterexample: the claim's value formula fails for a base
beginning with `/`: `os.path.join` restarts at such a component instead
of concatenating. -/
theorem c2_counterexample :
    get_volumes [("data_dirs", JField.dict [("d", "h")])] "/w" =
      some [("h", "/w/data_dirs/d")] ∧
    ("/w/data_dirs/d" : String) ≠ "/" ++ "/w" ++ "/" ++ "data_dirs" ++ "/" ++ "d" := by
  decide

/-- C2 (amended with: the base nonempty and without a leading or
trailing `/`, and no nested name with a leading `/`): every entry of
`get_volumes` has a host path drawn from the document's category leaves
and the container path `/` + base + `/` + category + `/` + name of that
entry. -/
theorem c2_get_volumes_entries (cfg : ConfigDoc) (B : String)
    (vols : List (String × String))
    (hB0 : B ≠ "") (hB1 : B.data.head? ≠ some '/') (hB2 : B.data.getLast? ≠ some '/')
    (hclean : namesClean cfg = true)
    (hv : get_volumes cfg B = some vols) :
    ∀ hp cp, (hp, cp) ∈ vols →
      ∃ dt m n, (dt = "data_dirs" ∨ dt = "system_dirs") ∧
        alookup cfg dt = some (.dict m) ∧ (n, hp) ∈ m ∧
        cp = "/" ++ B ++ "/" ++ dt ++ "/" ++ n := by
  intro hp cp hmem
  rw [get_volumes_eq_fold] at hv
  cases hti : taggedItems cfg with
  | none => rw [hti] at hv; cases hv
  | some items =>
    rw [hti] at hv
    simp at hv
    rw [← hv] at hmem
    rcases mem_foldl_dictSet hmem with hinit | ⟨i, hi, hpq⟩
    · cases hinit
    · have hcp : cp = pjoin "/" [B, i.1, i.2.1] := congrArg Prod.snd hpq
      have hhp : hp = i.2.2 := congrArg Prod.fst hpq
      unfold taggedItems at hti
      cases hd : getItems cfg "data_dirs" with
      | none => rw [hd] at hti; cases hti
      | some d =>
        cases hs : getItems cfg "system_dirs" with
        | none => rw [hd, hs] at hti; cases hti
        | some s =>
          rw [hd, hs] at hti
          simp at hti
          rw [← hti] at hi
          rcases List.mem_append.mp hi with hid | his
          · rcases List.mem_map.mp hid with ⟨q, hq, hqi⟩
            rcases getItems_some hd with ⟨_, hdnil⟩ | hdd
            · rw [hdnil] at hq; cases hq
            · refine ⟨"data_dirs", d, q.1, Or.inl rfl, hdd, ?_, ?_⟩
              · rw [hhp, ← hqi]
                exact hq
              · rw [hcp, ← hqi]
                have hcl := namesClean_spec hclean "data_dirs" d hdd q.1
                  (List.mem_map.mpr ⟨q, hq, rfl⟩)
                exact pjoin_slash B "data_dirs" q.1 (data_ne_nil_of_ne_empty hB0)
                  hB1 hB2 (by decide) (by decide) (by decide) hcl
          · rcases List.mem_map.mp his with ⟨q, hq, hqi⟩
            rcases getItems_some hs with ⟨_, hsnil⟩ | hss
            · rw [hsnil] at hq; cases hq
            · refine ⟨"system_dirs", s, q.1, Or.inr rfl, hss, ?_, ?_⟩
              · rw [hhp, ← hqi]
                exact hq
              · rw [hcp, ← hqi]
                have hcl := namesClean_spec hclean "system_dirs" s hss q.1
                  (List.mem_map.mpr ⟨q, hq, rfl⟩)
                exact pjoin_slash B "system_dirs" q.1 (data_ne_nil_of_ne_empty hB0)
                  hB1 hB2 (by decide) (by decide) (by decide) hcl

/-- C2 witness at a one-entry document and base `w`, instantiated at
the single produced entry. -/
theorem c2_get_volumes_entries_witness :
    ∃ dt m n, (dt = "data_dirs" ∨ dt = "system_dirs") ∧
      alookup [("data_dirs", JField.dict [("d", "h")])] dt = some (.dict m) ∧
      (n, "h") ∈ m ∧ "/w/data_dirs/d" = "/" ++ "w" ++ "/" ++ dt ++ "/" ++ n :=
  c2_get_volumes_entries [("data_dirs", JField.dict [("d", "h")])] "w"
    [("h", "/w/data_dirs/d")] (by decide) (by decide) (by decide) (by decide) (by decide)
    "h" "/w/data_dirs/d" (by decide)

/-- C3: `get_volumes` keeps a single entry per host path (keys of the
result are distinct); a host path that occurs as the leaf of several
(category, name) entries gets the container path of the entry
processed last in the iteration order — `data_dirs` before
`system_dirs`, names in document order — and no error is raised. -/
theorem c3_get_volumes_last_wins (cfg : ConfigDoc) (B : String)
    (vols : List (String × String)) (items : List (String × String × String))
    (hv : get_volumes cfg B = some vols) (hi : taggedItems cfg = some items) :
    (vols.map Prod.fst).Nodup ∧
    ∀ hp, alookup vols hp =
      ((items.filter (fun i => i.2.2 = hp)).getLast?).map
        (fun i => pjoin "/" [B, i.1, i.2.1]) := by
  rw [get_volumes_eq_fold, hi] at hv
  simp at hv
  constructor
  · rw [← hv]
    exact nodup_keys_foldl_dictSet _ _ _ _ (by simp)
  · intro hp
    rw [← hv, alookup_foldl_dictSet (fun i : String × String × String => i.2.2)
      (fun i : String × String × String => pjoin "/" [B, i.1, i.2.1]) items [] hp]
    cases (items.filter (fun i : String × String × String => i.2.2 = hp)).getLast? <;>
      simp [alookup]

/-- C3 witness: the host path `h` occurs under both categories; the
result holds its single entry with the `system_dirs` container path. -/
theorem c3_get_volumes_last_wins_witness :
    ((([("h", "/w/system_dirs/b")] : List (String × String)).map Prod.fst).Nodup) ∧
    ∀ hp, alookup ([("h", "/w/system_dirs/b")] : List (String × String)) hp =
      ((([("data_dirs", "a", "h"), ("system_dirs", "b", "h")] :
          List (String × String × String)).filter (fun i => i.2.2 = hp)).getLast?).map
        (fun i => pjoin "/" ["w", i.1, i.2.1]) :=
  c3_get_volumes_last_wins
    [("data_dirs", JField.dict [("a", "h")]), ("system_dirs", JField.dict [("b", "h")])]
    "w" [("h", "/w/system_dirs/b")]
    [("data_dirs", "a", "h"), ("system_dirs", "b", "h")] (by decide) (by decide)

/-- C10: `get_container_config` depends only on which categories are
present and on the names each category yields — never on the host-path
leaf values.  Two documents agreeing on those produce mappings equal as
dicts (same categories, and inner dicts with the same lookups). -/
theorem c10_container_config_independent (d1 d2 : ConfigDoc)
    (hpres : ∀ dt, (dt = "data_dirs" ∨ dt = "system_dirs") →
      ((alookup d1 dt).isSome ↔ (alookup d2 dt).isSome))
    (hnames : ∀ dt f1 f2, (dt = "data_dirs" ∨ dt = "system_dirs") →
      alookup d1 dt = some f1 → alookup d2 dt = some f2 →
      ∀ n, n ∈ fieldNames f1 ↔ n ∈ fieldNames f2) :
    (∀ dt, (alookup (get_container_config d1) dt).isSome ↔
        (alookup (get_container_config d2) dt).isSome) ∧
    (∀ dt i1 i2, alookup (get_container_config d1) dt = some i1 →
      alookup (get_container_config d2) dt = some i2 →
      ∀ n, alookup i1 n = alookup i2 n) := by
  constructor
  · intro dt
    rw [alookup_gcc, alookup_gcc]
    by_cases h : dt = "data_dirs" ∨ dt = "system_dirs"
    · rw [if_pos h, if_pos h]
      simpa using hpres dt h
    · rw [if_neg h, if_neg h]
  · intro dt i1 i2 h1 h2 n
    rw [alookup_gcc] at h1 h2
    by_cases h : dt = "data_dirs" ∨ dt = "system_dirs"
    · rw [if_pos h] at h1 h2
      rcases Option.map_eq_some'.mp h1 with ⟨f1, hf1, hi1⟩
      rcases Option.map_eq_some'.mp h2 with ⟨f2, hf2, hi2⟩
      rw [← hi1, ← hi2, alookup_innerFor, alookup_innerFor]
      by_cases hn : n ∈ fieldNames f1
      · rw [if_pos hn, if_pos ((hnames dt f1 f2 h hf1 hf2 n).mp hn)]
      · rw [if_neg hn, if_neg (fun hc => hn ((hnames dt f1 f2 h hf1 hf2 n).mpr hc))]
    · rw [if_neg h] at h1
      cases h1

/-- C10 witness: two documents identical except for the host-path leaf
(`h1` versus `h2`) produce dict-equal container configurations. -/
theorem c10_container_config_independent_witness :
    (∀ dt, (alookup (get_container_config [("data_dirs", JField.dict [("a", "h1")])]) dt).isSome ↔
        (alookup (get_container_config [("data_dirs", JField.dict [("a", "h2")])]) dt).isSome) ∧
    (∀ dt i1 i2,
      alookup (get_container_config [("data_dirs", JField.dict [("a", "h1")])]) dt = some i1 →
      alookup (get_container_config [("data_dirs", JField.dict [("a", "h2")])]) dt = some i2 →
      ∀ n, alookup i1 n = alookup i2 n) :=
  c10_container_config_independent
    [("data_dirs", JField.dict [("a", "h1")])]
    [("data_dirs", JField.dict [("a", "h2")])]
    (by intro dt h; rcases h with rfl | rfl <;> decide)
    (by
      intro dt f1 f2 h h1 h2
      rcases h with rfl | rfl
      · simp [alookup] at h1 h2
        rw [← h1, ← h2]
        intro n
        exact Iff.rfl
      · simp [alookup] at h1)

/-- C8: `get_default_config` is a parameterless pure definition (so any
two calls are the same document, with no I/O in the model); it holds
exactly the specified `data_dirs` and `system_dirs` names, the three
scalar fields, and the three derived fields, each the path-join of the
`system_dirs` `cfg` value with its fixed file name. -/
theorem c8_default_config_fields :
    (∃ m, alookup get_default_config "data_dirs" = some (.dict m) ∧
      m.map Prod.fst = ["datasets", "model_answers", "model_metrics",
        "prompt_collections", "system_prompts", "reports"]) ∧
    (∃ m, alookup get_default_config "system_dirs" = some (.dict m) ∧
      m.map Prod.fst = ["cfg", "bench_stages", "model_cache", "wheels"]) ∧
    (∃ s, alookup get_default_config "user_config" = some (.str s)) ∧
    (∃ s, alookup get_default_config "vlm_base" = some (.str s)) ∧
    (∃ s, alookup get_default_config "eval_docker_img" = some (.str s)) ∧
    (∃ m c, alookup get_default_config "system_dirs" = some (.dict m) ∧
      alookup m "cfg" = some c ∧
      alookup get_default_config "benchmark_run_cfg" =
        some (.str (pjoin c ["BenchmarkRunConfig.json"])) ∧
      alookup get_default_config "vlm_run_packages" =
        some (.str (pjoin c ["vlm_run_requirements.txt"])) ∧
      alookup get_default_config "eval_run_packages" =
        some (.str (pjoin c ["eval_run_requirements.txt"]))) := by
  refine ⟨⟨[("datasets", "vlmhyperbench/data_dirs/Datasets"),
      ("model_answers", "vlmhyperbench/data_dirs/ModelsAnswers"),
      ("model_metrics", "vlmhyperbench/data_dirs/ModelsMetrics"),
      ("prompt_collections", "vlmhyperbench/data_dirs/PromptCollections"),
      ("system_prompts", "vlmhyperbench/data_dirs/SystemPrompts"),
      ("reports", "vlmhyperbench/data_dirs/Reports")], by decide, by decide⟩,
    ⟨[("cfg", "vlmhyperbench/system_dirs/cfg"),
      ("bench_stages", "vlmhyperbench/system_dirs/bench_stages"),
      ("model_cache", "vlmhyperbench/system_dirs/model_cache"),
      ("wheels", "vlmhyperbench/system_dirs/wheels")], by decide, by decide⟩,
    ⟨"user_config_prompt_eval.csv", by decide⟩,
    ⟨"vlmhyperbench/vlm_base.csv", by decide⟩,
    ⟨"ghcr.io/vlmhyperbenchteam/metric-evaluator:python3.10-slim_v0.1.0", by decide⟩,
    ⟨[("cfg", "vlmhyperbench/system_dirs/cfg"),
      ("bench_stages", "vlmhyperbench/system_dirs/bench_stages"),
      ("model_cache", "vlmhyperbench/system_dirs/model_cache"),
      ("wheels", "vlmhyperbench/system_dirs/wheels")],
      "vlmhyperbench/system_dirs/cfg", by decide, by decide, by decide, by decide, by decide⟩⟩

/-- C9: calling `get_volumes` (any base) or `get_container_config`
leaves the instance — document included — unchanged; the views cached
at construction keep their construction-time values even after the
caller mutates the document, while fresh calls derive from the mutated
document. -/
theorem c9_views_frame (path : String) (cfg cfg2 : ConfigDoc) (st : CMState)
    (base : String) (hc : construct path cfg = some st) :
    (callGetVolumes (setCfg st cfg2) base).2 = setCfg st cfg2 ∧
    (callGetContainerConfig (setCfg st cfg2)).2 = setCfg st cfg2 ∧
    (setCfg st cfg2).volumes = st.volumes ∧
    (setCfg st cfg2).cfg_container = st.cfg_container ∧
    get_volumes cfg "workspace" = some st.volumes ∧
    st.cfg_container = get_container_config cfg ∧
    (callGetVolumes (setCfg st cfg2) base).1 = get_volumes cfg2 base ∧
    (callGetContainerConfig (setCfg st cfg2)).1 = get_container_config cfg2 := by
  unfold construct at hc
  cases hv : get_volumes cfg "workspace" with
  | none => rw [hv] at hc; cases hc
  | some v =>
    rw [hv] at hc
    simp at hc
    rw [← hc]
    exact ⟨rfl, rfl, rfl, rfl, rfl, rfl, rfl, rfl⟩

/-- C9 witness: an instance built on the empty document, then mutated. -/
theorem c9_views_frame_witness :
    (callGetVolumes (setCfg ⟨"p", [], [], []⟩ [("data_dirs", JField.dict [("a", "h")])]) "b").2 =
      setCfg ⟨"p", [], [], []⟩ [("data_dirs", JField.dict [("a", "h")])] ∧
    (callGetContainerConfig (setCfg ⟨"p", [], [], []⟩ [("data_dirs", JField.dict [("a", "h")])])).2 =
      setCfg ⟨"p", [], [], []⟩ [("data_dirs", JField.dict [("a", "h")])] ∧
    (setCfg ⟨"p", [], [], []⟩ [("data_dirs", JField.dict [("a", "h")])]).volumes =
      CMState.volumes ⟨"p", [], [], []⟩ ∧
    (setCfg ⟨"p", [], [], []⟩ [("data_dirs", JField.dict [("a", "h")])]).cfg_container =
      CMState.cfg_container ⟨"p", [], [], []⟩ ∧
    get_volumes [] "workspace" = some (CMState.volumes ⟨"p", [], [], []⟩) ∧
    CMState.cfg_container ⟨"p", [], [], []⟩ = get_container_config [] ∧
    (callGetVolumes (setCfg ⟨"p", [], [], []⟩ [("data_dirs", JField.dict [("a", "h")])]) "b").1 =
      get_volumes [("data_dirs", JField.dict [("a", "h")])] "b" ∧
    (callGetContainerConfig (setCfg ⟨"p", [], [], []⟩ [("data_dirs", JField.dict [("a", "h")])])).1 =
      get_container_config [("data_dirs", JField.dict [("a", "h")])] :=
  c9_views_frame "p" [] [("data_dirs", JField.dict [("a", "h")])] ⟨"p", [], [], []⟩ "b"
    (by decide)

lemma string_mk_data (s : String) : String.mk s.data = s := by
  cases s
  rfl

lemma skipWs_cons_of_not_ws (c : Char) (l : List Char) (hc : isJsonWs c = false) :
    skipWs (c :: l) = c :: l := by
  simp [skipWs, List.dropWhile_cons, hc]

lemma skipWs_cons_ws (c : Char) (l : List Char) (hc : isJsonWs c = true) :
    skipWs (c :: l) = skipWs l := by
  simp [skipWs, List.dropWhile_cons, hc]

lemma skipWs_append_ws : ∀ (w : List Char), w.all isJsonWs = true →
    ∀ l, skipWs (w ++ l) = skipWs l
  | [], _, l => rfl
  | a :: t, hw, l => by
    simp only [List.all_cons, Bool.and_eq_true] at hw
    rw [List.cons_append, skipWs_cons_ws a _ hw.1]
    exact skipWs_append_ws t hw.2 l

lemma skipWs_quote (k : String) (r : List Char) :
    skipWs (quoteChars k ++ r) = quoteChars k ++ r := by
  unfold quoteChars
  rw [List.cons_append]
  exact skipWs_cons_of_not_ws _ _ (by decide)

lemma hexVal_hexDig : ∀ m < 16, hexVal (hexDig m) = some m := by decide

lemma scanStr_escChar (c : Char) (l : List Char) :
    scanStr (escChar c ++ l) = (scanStr l).map (fun p => (c :: p.1, p.2)) := by
  unfold escChar
  by_cases h1 : c = '"'
  · subst h1
    rw [if_pos rfl]
    simp only [List.cons_append, List.nil_append]
    rw [scanStr.eq_def]
    simp [escDecode]
  · rw [if_neg h1]
    by_cases h2 : c = '\\'
    · subst h2
      rw [if_pos rfl]
      simp only [List.cons_append, List.nil_append]
      rw [scanStr.eq_def]
      simp [escDecode]
    · rw [if_neg h2]
      by_cases h3 : c = '\n'
      · subst h3
        rw [if_pos rfl]
        simp only [List.cons_append, List.nil_append]
        rw [scanStr.eq_def]
        simp [escDecode]
      · rw [if_neg h3]
        by_cases h4 : c = '\t'
        · subst h4
          rw [if_pos rfl]
          simp only [List.cons_append, List.nil_append]
          rw [scanStr.eq_def]
          simp [escDecode]
        · rw [if_neg h4]
          by_cases h5 : c = '\r'
          · subst h5
            rw [if_pos rfl]
            simp only [List.cons_append, List.nil_append]
            rw [scanStr.eq_def]
            simp [escDecode]
          · rw [if_neg h5]
            by_cases h6 : c = '\x08'
            · subst h6
              rw [if_pos rfl]
              simp only [List.cons_append, List.nil_append]
              rw [scanStr.eq_def]
              simp [escDecode]
            · rw [if_neg h6]
              by_cases h7 : c = '\x0c'
              · subst h7
                rw [if_pos rfl]
                simp only [List.cons_append, List.nil_append]
                rw [scanStr.eq_def]
                simp [escDecode]
              · rw [if_neg h7]
                by_cases h8 : c.toNat < 32
                · rw [if_pos h8]
                  simp only [List.cons_append, List.nil_append]
                  rw [scanStr.eq_def]
                  have hofNat : Char.ofNat (c.toNat / 16 * 16 + c.toNat % 16) = c := by
                    rw [show c.toNat / 16 * 16 + c.toNat % 16 = c.toNat by omega,
                      Char.ofNat_toNat]
                  simp [hexVal_hexDig (c.toNat / 16) (by omega),
                    hexVal_hexDig (c.toNat % 16) (by omega),
                    show hexVal '0' = some 0 from rfl, hofNat]
                · rw [if_neg h8]
                  simp only [List.cons_append, List.nil_append]
                  rw [scanStr.eq_def]
                  simp [h1, h2, h8]

lemma scanStr_escAll (cs : List Char) (l : List Char) :
    scanStr ((cs.map escChar).flatten ++ '"' :: l) = some (cs, l) := by
  induction cs with
  | nil =>
    simp only [List.map_nil, List.flatten_nil, List.nil_append]
    rw [scanStr.eq_def]
    simp
  | cons c t ih =>
    rw [List.map_cons, List.flatten_cons, List.append_assoc, scanStr_escChar, ih]
    rfl

lemma parseJStr_quote (s : String) (l : List Char) :
    parseJStr (quoteChars s ++ l) = some (s, l) := by
  have harg : quoteChars s ++ l = '"' :: ((s.data.map escChar).flatten ++ '"' :: l) := by
    simp [quoteChars]
  rw [harg]
  show (scanStr ((s.data.map escChar).flatten ++ '"' :: l)).map
      (fun p => (String.mk p.1, p.2)) = some (s, l)
  rw [scanStr_escAll]
  simp [string_mk_data]

lemma parseObjLoop_round {α : Type} (pv : List Char → Option (α × List Char))
    (ev : α → List Char) (ind closeInd : List Char)
    (hind : ind.all isJsonWs = true) (hclose : closeInd.all isJsonWs = true)
    (hhd : ∀ v r, skipWs (ev v ++ r) = ev v ++ r) :
    ∀ (m : List (String × α)), m ≠ [] →
    ∀ (w : List Char), w.all isJsonWs = true →
    ∀ (acc : List (String × α)) (fuel : Nat) (l : List Char),
      m.length ≤ fuel →
      (∀ p ∈ m, ∀ r, pv (ev p.2 ++ r) = some (p.2, r)) →
      (∀ p ∈ m, p.1 ∉ acc.map Prod.fst) →
      (m.map Prod.fst).Nodup →
      parseObjLoop pv fuel acc (w ++ objItems ind ev m ++ '\n' :: closeInd ++ '}' :: l) =
        some (acc ++ m, l) := by
  intro m
  induction m with
  | nil => intro hne; exact absurd rfl hne
  | cons p t ih =>
    intro _ w hw acc fuel l hfuel hpv hacc hnodup
    obtain ⟨f, rfl⟩ : ∃ f, fuel = f + 1 :=
      ⟨fuel - 1, by simp at hfuel; omega⟩
    cases t with
    | nil =>
      simp only [objItems, List.append_assoc, List.cons_append]
      have e1 : skipWs (w ++ (ind ++ (quoteChars p.1 ++ (':' :: ' ' ::
          (ev p.2 ++ ('\n' :: (closeInd ++ ('}' :: l)))))))) =
          quoteChars p.1 ++ (':' :: ' ' :: (ev p.2 ++ ('\n' :: (closeInd ++ ('}' :: l))))) := by
        rw [skipWs_append_ws w hw, skipWs_append_ws ind hind, skipWs_quote]
      have e2 := parseJStr_quote p.1
        (':' :: ' ' :: (ev p.2 ++ ('\n' :: (closeInd ++ ('}' :: l)))))
      have e3 : skipWs (':' :: ' ' :: (ev p.2 ++ ('\n' :: (closeInd ++ ('}' :: l))))) =
          ':' :: ' ' :: (ev p.2 ++ ('\n' :: (closeInd ++ ('}' :: l)))) :=
        skipWs_cons_of_not_ws _ _ (by decide)
      have e4 : skipWs (' ' :: (ev p.2 ++ ('\n' :: (closeInd ++ ('}' :: l))))) =
          ev p.2 ++ ('\n' :: (closeInd ++ ('}' :: l))) := by
        rw [skipWs_cons_ws _ _ (by decide), hhd]
      have e5 := hpv p (List.mem_cons_self p []) ('\n' :: (closeInd ++ ('}' :: l)))
      have e6 : skipWs ('\n' :: (closeInd ++ ('}' :: l))) = '}' :: l := by
        rw [skipWs_cons_ws _ _ (by decide), skipWs_append_ws closeInd hclose,
          skipWs_cons_of_not_ws _ _ (by decide)]
      simp only [parseObjLoop, e1, e2, e3, e4, e5, e6]
      rw [dictSet_of_not_mem p.2 (hacc p (List.mem_cons_self p []))]
    | cons q t2 =>
      simp only [objItems, List.append_assoc, List.cons_append]
      have e1 : skipWs (w ++ (ind ++ (quoteChars p.1 ++ (':' :: ' ' ::
          (ev p.2 ++ (',' :: '\n' :: (objItems ind ev (q :: t2) ++
            ('\n' :: (closeInd ++ ('}' :: l)))))))))) =
          quoteChars p.1 ++ (':' :: ' ' :: (ev p.2 ++ (',' :: '\n' ::
            (objItems ind ev (q :: t2) ++ ('\n' :: (closeInd ++ ('}' :: l))))))) := by
        rw [skipWs_append_ws w hw, skipWs_append_ws ind hind, skipWs_quote]
      have e2 := parseJStr_quote p.1 (':' :: ' ' :: (ev p.2 ++ (',' :: '\n' ::
        (objItems ind ev (q :: t2) ++ ('\n' :: (closeInd ++ ('}' :: l)))))))
      have e3 : skipWs (':' :: ' ' :: (ev p.2 ++ (',' :: '\n' ::
          (objItems ind ev (q :: t2) ++ ('\n' :: (closeInd ++ ('}' :: l))))))) =
          ':' :: ' ' :: (ev p.2 ++ (',' :: '\n' ::
            (objItems ind ev (q :: t2) ++ ('\n' :: (closeInd ++ ('}' :: l)))))) :=
        skipWs_cons_of_not_ws _ _ (by decide)
      have e4 : skipWs (' ' :: (ev p.2 ++ (',' :: '\n' ::
          (objItems ind ev (q :: t2) ++ ('\n' :: (closeInd ++ ('}' :: l))))))) =
          ev p.2 ++ (',' :: '\n' ::
            (objItems ind ev (q :: t2) ++ ('\n' :: (closeInd ++ ('}' :: l))))) := by
        rw [skipWs_cons_ws _ _ (by decide), hhd]
      have e5 := hpv p (List.mem_cons_self p (q :: t2)) (',' :: '\n' ::
        (objItems ind ev (q :: t2) ++ ('\n' :: (closeInd ++ ('}' :: l)))))
      have e6 : skipWs (',' :: '\n' ::
          (objItems ind ev (q :: t2) ++ ('\n' :: (closeInd ++ ('}' :: l))))) =
          ',' :: '\n' :: (objItems ind ev (q :: t2) ++ ('\n' :: (closeInd ++ ('}' :: l)))) :=
        skipWs_cons_of_not_ws _ _ (by decide)
      have hnd : p.1 ∉ (q :: t2).map Prod.fst ∧ ((q :: t2).map Prod.fst).Nodup := by
        rw [List.map_cons, List.nodup_cons] at hnodup
        exact hnodup
      have hacc2 : ∀ r ∈ q :: t2, r.1 ∉ (acc ++ [p]).map Prod.fst := by
        intro r hr
        rw [List.map_append]
        simp only [List.map_cons, List.map_nil, List.mem_append, List.mem_singleton]
        rintro (hin | hin)
        · exact hacc r (List.mem_cons_of_mem p hr) hin
        · exact hnd.1 (List.mem_map.mpr ⟨r, hr, hin⟩)
      have ihx := ih (List.cons_ne_nil q t2) ['\n'] (by decide) (acc ++ [p]) f l
        (by simp at hfuel ⊢; omega)
        (fun r hr => hpv r (List.mem_cons_of_mem p hr)) hacc2 hnd.2
      simp only [List.singleton_append, List.nil_append, List.append_assoc,
        List.cons_append] at ihx
      simp only [parseObjLoop, e1, e2, e3, e4, e5, e6]
      rw [dictSet_of_not_mem p.2 (hacc p (List.mem_cons_self p (q :: t2))), ihx]

lemma objItems_quote_head {α : Type} (ind : List Char) (ev : α → List Char) :
    ∀ (m : List (String × α)), m ≠ [] →
      ∃ k T, objItems ind ev m = ind ++ (quoteChars k ++ T)
  | [], hm => absurd rfl hm
  | [p], _ => ⟨p.1, ':' :: ' ' :: ev p.2, by simp [objItems, List.append_assoc]⟩
  | p :: q :: t, _ =>
    ⟨p.1, ':' :: ' ' :: (ev p.2 ++ ',' :: '\n' :: objItems ind ev (q :: t)), by
      simp [objItems, List.append_assoc]⟩

lemma objItems_length_ge {α : Type} (ind : List Char) (ev : α → List Char) :
    ∀ (m : List (String × α)), m.length ≤ (objItems ind ev m).length
  | [] => by simp [objItems]
  | [p] => by
    simp [objItems, quoteChars]
    omega
  | p :: q :: t => by
    have := objItems_length_ge ind ev (q :: t)
    simp [objItems, quoteChars] at this ⊢
    omega

lemma parseObjAt_round {α : Type} (pv : List Char → Option (α × List Char))
    (ev : α → List Char) (ind closeInd : List Char)
    (hind : ind.all isJsonWs = true) (hclose : closeInd.all isJsonWs = true)
    (hhd : ∀ v r, skipWs (ev v ++ r) = ev v ++ r)
    (m : List (String × α)) (fuel : Nat) (l : List Char)
    (hfuel : m.length ≤ fuel)
    (hpv : ∀ p ∈ m, ∀ r, pv (ev p.2 ++ r) = some (p.2, r))
    (hnodup : (m.map Prod.fst).Nodup) :
    parseObjAt pv fuel (dumpObj ind closeInd ev m ++ l) = some (m, l) := by
  cases m with
  | nil => rfl
  | cons p t =>
    have hobj := objItems_quote_head ind ev (p :: t) (List.cons_ne_nil p t)
    rcases hobj with ⟨k, T, hobj⟩
    show parseObjAt pv fuel ('{' :: '\n' ::
      ((objItems ind ev (p :: t) ++ '\n' :: closeInd ++ ['}']) ++ l)) = some (p :: t, l)
    have hr : skipWs ('\n' :: ((objItems ind ev (p :: t) ++ '\n' :: closeInd ++ ['}']) ++ l)) =
        '"' :: ((k.data.map escChar).flatten ++ '"' ::
          (T ++ ('\n' :: closeInd ++ ['}']) ++ l)) := by
      rw [skipWs_cons_ws _ _ (by decide)]
      rw [List.append_assoc, List.append_assoc, hobj, List.append_assoc,
        skipWs_append_ws ind hind, List.append_assoc, skipWs_quote]
      simp [quoteChars, List.append_assoc]
    have hloop := parseObjLoop_round pv ev ind closeInd hind hclose hhd (p :: t)
      (List.cons_ne_nil p t) ['\n'] (by decide) [] fuel l hfuel hpv
      (by intro r _; simp) hnodup
    simp only [List.singleton_append, List.nil_append, List.append_assoc,
      List.cons_append] at hloop
    show (match skipWs ('\n' ::
        ((objItems ind ev (p :: t) ++ '\n' :: closeInd ++ ['}']) ++ l)) with
      | '}' :: r2 => some (([] : List (String × α)), r2)
      | _ => parseObjLoop pv fuel []
          ('\n' :: ((objItems ind ev (p :: t) ++ '\n' :: closeInd ++ ['}']) ++ l))) =
      some (p :: t, l)
    rw [hr]
    show parseObjLoop pv fuel []
        ('\n' :: ((objItems ind ev (p :: t) ++ '\n' :: closeInd ++ ['}']) ++ l)) =
      some (p :: t, l)
    simp only [List.append_assoc, List.cons_append, List.singleton_append]
    exact hloop

lemma skipWs_dumpField (f : JField) (r : List Char) :
    skipWs (dumpField f ++ r) = dumpField f ++ r := by
  cases f with
  | str s =>
    show skipWs (quoteChars s ++ r) = quoteChars s ++ r
    exact skipWs_quote s r
  | dict m =>
    cases m with
    | nil =>
      show skipWs ('{' :: '}' :: r) = '{' :: '}' :: r
      exact skipWs_cons_of_not_ws _ _ (by decide)
    | cons p t =>
      show skipWs ('{' :: '\n' ::
          ((objItems ind8 (fun v => quoteChars v) (p :: t) ++ '\n' :: ind4 ++ ['}']) ++ r)) =
        '{' :: '\n' ::
          ((objItems ind8 (fun v => quoteChars v) (p :: t) ++ '\n' :: ind4 ++ ['}']) ++ r)
      exact skipWs_cons_of_not_ws _ _ (by decide)

lemma parseField_round (f : JField)
    (hf : match f with
      | JField.str _ => True
      | JField.dict m => (m.map Prod.fst).Nodup)
    (l : List Char) :
    parseField (dumpField f ++ l) = some (f, l) := by
  cases f with
  | str s =>
    have harg : dumpField (JField.str s) ++ l =
        '"' :: ((s.data.map escChar).flatten ++ '"' :: l) := by
      simp [dumpField, quoteChars]
    rw [harg]
    show (parseJStr ('"' :: ((s.data.map escChar).flatten ++ '"' :: l))).map
        (fun p => (JField.str p.1, p.2)) = some (JField.str s, l)
    rw [show ('"' : Char) :: ((s.data.map escChar).flatten ++ '"' :: l) =
      quoteChars s ++ l from by simp [quoteChars]]
    rw [parseJStr_quote]
    rfl
  | dict m =>
    cases m with
    | nil => rfl
    | cons p t =>
      have harm : parseField (dumpField (JField.dict (p :: t)) ++ l) =
          (parseObjAt (fun ds => parseJStr ds)
            ((dumpField (JField.dict (p :: t)) ++ l).length + 1)
            (dumpField (JField.dict (p :: t)) ++ l)).map
            (fun q => (JField.dict q.1, q.2)) := rfl
      have hfuel : (p :: t).length ≤ (dumpField (JField.dict (p :: t)) ++ l).length + 1 := by
        have hob := objItems_length_ge ind8 (fun v => quoteChars v) (p :: t)
        simp [dumpField, dumpObj] at hob ⊢
        omega
      rw [harm]
      rw [show dumpField (JField.dict (p :: t)) =
        dumpObj ind8 ind4 (fun v => quoteChars v) (p :: t) from rfl] at hfuel ⊢
      rw [parseObjAt_round (fun ds => parseJStr ds) (fun v => quoteChars v)
        ind8 ind4 (by decide) (by decide) (fun v r => skipWs_quote v r) (p :: t) _ l
        hfuel (fun q _ r => parseJStr_quote q.2 r) hf]
      rfl

lemma parseConfig_dumpConfig (cfg : ConfigDoc)
    (h1 : (cfg.map Prod.fst).Nodup)
    (h2 : ∀ p ∈ cfg, match p.2 with
      | JField.str _ => True
      | JField.dict m => (m.map Prod.fst).Nodup) :
    parseConfig (dumpConfig cfg) = some cfg := by
  unfold parseConfig dumpConfig
  rw [show (String.mk (dumpObj ind4 [] dumpField cfg)).data =
    dumpObj ind4 [] dumpField cfg from rfl]
  have hsw : skipWs (dumpObj ind4 [] dumpField cfg) = dumpObj ind4 [] dumpField cfg := by
    cases cfg with
    | nil => rfl
    | cons p t =>
      show skipWs ('{' :: '\n' :: (objItems ind4 dumpField (p :: t) ++ '\n' :: [] ++ ['}'])) =
        '{' :: '\n' :: (objItems ind4 dumpField (p :: t) ++ '\n' :: [] ++ ['}'])
      exact skipWs_cons_of_not_ws _ _ (by decide)
  rw [hsw]
  have hfuel : cfg.length ≤ (dumpObj ind4 [] dumpField cfg).length + 1 := by
    cases cfg with
    | nil => simp
    | cons p t =>
      have hob := objItems_length_ge ind4 dumpField (p :: t)
      simp [dumpObj] at hob ⊢
      omega
  have hround := parseObjAt_round parseField dumpField ind4 [] (by decide) (by decide)
    skipWs_dumpField cfg ((dumpObj ind4 [] dumpField cfg).length + 1) []
    hfuel (fun p hp r => parseField_round p.2 (h2 p hp) r) h1
  rw [List.append_nil] at hround
  rw [hround]
  rfl

/-- C7: writing the document and reading it back from the same path
yields the document that was written (for any document of the
data-model shape with Python-dict key uniqueness), and the written
bytes do not depend on the cached `volumes` / `cfg_container` views —
only the document itself is persisted. -/
theorem c7_write_read_round_trip (fs : FS) (st : CMState)
    (h : docNodupB st.cfg = true) :
    read_config (write_config fs st) st.cfg_path = some st.cfg ∧
    ∀ v c, write_config fs ⟨st.cfg_path, st.cfg, v, c⟩ = write_config fs st := by
  constructor
  · show (if st.cfg_path = st.cfg_path then some (dumpConfig st.cfg)
      else fs st.cfg_path).bind (fun contents => parseConfig contents) = some st.cfg
    rw [if_pos rfl]
    show parseConfig (dumpConfig st.cfg) = some st.cfg
    unfold docNodupB at h
    rw [Bool.and_eq_true] at h
    apply parseConfig_dumpConfig
    · exact of_decide_eq_true h.1
    · intro p hp
      have hall := List.all_eq_true.mp h.2 p hp
      cases hf : p.2 with
      | str s => trivial
      | dict m =>
        rw [hf] at hall
        exact of_decide_eq_true hall
  · intro v c
    rfl

/-- C7 witness: a two-field document round-trips through the file. -/
theorem c7_write_read_round_trip_witness :
    read_config (write_config (fun _ => none)
        ⟨"cfg.json", [("a", JField.str "x"), ("d", JField.dict [("k", "v")])], [], []⟩)
      "cfg.json" = some [("a", JField.str "x"), ("d", JField.dict [("k", "v")])] :=
  (c7_write_read_round_trip (fun _ => none)
    ⟨"cfg.json", [("a", JField.str "x"), ("d", JField.dict [("k", "v")])], [], []⟩
    (by decide)).1

example : dumpConfig [("a", .str "x"), ("d", .dict [("k", "v"), ("k2", "v2")]),
    ("e", .dict [])] =
  "\x7b\n    \"a\": \"x\",\n    \"d\": \x7b\n        \"k\": \"v\",\n        \"k2\": \"v2\"\n    \x7d,\n    \"e\": \x7b\x7d\n\x7d" := by
  decide

example : parseConfig (dumpConfig get_default_config) = some get_default_config :=
  parseConfig_dumpConfig get_default_config (by decide)
    (by
      intro p hp
      have hd : get_default_config =
          [("user_config", .str "user_config_prompt_eval.csv"),
           ("vlm_base", .str "vlmhyperbench/vlm_base.csv"),
           ("data_dirs", .dict [
             ("datasets", "vlmhyperbench/data_dirs/Datasets"),
             ("model_answers", "vlmhyperbench/data_dirs/ModelsAnswers"),
             ("model_metrics", "vlmhyperbench/data_dirs/ModelsMetrics"),
             ("prompt_collections", "vlmhyperbench/data_dirs/PromptCollections"),
             ("system_prompts", "vlmhyperbench/data_dirs/SystemPrompts"),
             ("reports", "vlmhyperbench/data_dirs/Reports")]),
           ("system_dirs", .dict [
             ("cfg", "vlmhyperbench/system_dirs/cfg"),
             ("bench_stages", "vlmhyperbench/system_dirs/bench_stages"),
             ("model_cache", "vlmhyperbench/system_dirs/model_cache"),
             ("wheels", "vlmhyperbench/system_dirs/wheels")]),
           ("eval_docker_img",
             .str "ghcr.io/vlmhyperbenchteam/metric-evaluator:python3.10-slim_v0.1.0"),
           ("benchmark_run_cfg", .str "vlmhyperbench/system_dirs/cfg/BenchmarkRunConfig.json"),
           ("vlm_run_packages", .str "vlmhyperbench/system_dirs/cfg/vlm_run_requirements.txt"),
           ("eval_run_packages",
             .str "vlmhyperbench/system_dirs/cfg/eval_run_requirements.txt")] := by decide
      rw [hd] at hp
      simp only [List.mem_cons, List.not_mem_nil, or_false] at hp
      rcases hp with rfl | rfl | rfl | rfl | rfl | rfl | rfl | rfl <;> trivial)
